import Mathlib

/-!
Shallow embedding of `api_client.go` (package `wow`): a client library for a
region-partitioned REST game-data API.  Pure request-construction logic is
translated directly; the network round trip itself is out of scope, so the
embedding models the request a call builds (method, URL, headers) rather than
the response.  Go maps are modelled as association lists; the unordered map
iteration of Go is modelled by iterating the list in order (one admissible
order).  Errors created with `errors.New(fmt.Sprintf(...))` are modelled as
their message strings (apostrophes in those messages are written `\x27`).
-/

/-- The `ApiClient` struct: `Host`, `Locale`, `Secret`, `PublicKey`. -/
structure ApiClient where
  Host : String
  Locale : String
  Secret : String
  PublicKey : String
deriving Repr, DecidableEq

/-- The region `switch` in `NewApiClient`: maps a region identifier (short
code or full name) to the host and the ordered list of valid locales;
`none` models the `default` branch. -/
def regionInfo : String → Option (String × List String)
  | "US" | "United States" => some ("us.battle.net", ["en_US", "es_MX", "pt_BR"])
  | "EU" | "Europe" => some ("eu.battle.net", ["en_GB", "es_ES", "fr_FR", "ru_RU", "de_DE", "pt_PT", "it_IT"])
  | "KR" | "Korea" => some ("kr.battle.net", ["ko_KR"])
  | "TW" | "Taiwan" => some ("tw.battle.net", ["zh_TW"])
  | "ZH" | "CN" | "China" => some ("www.battle.com.cn", ["zh_CN"])
  | _ => none

/-- The constructor `NewApiClient(region, locale)`.  On the `default` branch of
the region switch it returns the Region-is-not-valid error; with an empty
locale it takes `validLocales[0]`; otherwise it scans `validLocales` for an
exact match (modelled by `List.contains`) and on failure returns the
Locale-is-not-valid-for-region error.  The Go struct literal
`&ApiClient{Host: host, Locale: ...}` leaves `Secret` and `PublicKey` at the
zero value `""`. -/
def NewApiClient (region : String) (locale : String) : Except String ApiClient :=
  match regionInfo region with
  | none => Except.error ("Region \x27" ++ region ++ "\x27 is not valid")
  | some (host, validLocales) =>
    if locale = "" then
      Except.ok ⟨host, validLocales.headD "", "", ""⟩
    else if validLocales.contains locale then
      Except.ok ⟨host, locale, "", ""⟩
    else
      Except.error ("Locale \x27" ++ locale ++ "\x27 is not valid for region \x27" ++ region ++ "\x27")

/-- Go map assignment `m[k] = v` on the association-list model: replace the
value at `k` if the key is present, otherwise add the binding. -/
def mapSet (m : List (String × String)) (k : String) (v : String) : List (String × String) :=
  match m with
  | [] => [(k, v)]
  | p :: rest => if p.1 = k then (k, v) :: rest else p :: mapSet rest k v

/-- The `url.URL` value built by `ApiClient.url` (the fields the source sets). -/
structure GoURL where
  Scheme : String
  Host : String
  Path : String
  RawQuery : String
deriving Repr, DecidableEq

/-- Serialization of one query-parameter pair, `k + "=" + v`. -/
def queryPair (p : String × String) : String := p.1 ++ "=" ++ p.2

/-- The map `ApiClient.url` serializes: the map of the caller after the
in-place assignment `queryParamPairs["locale"] = a.Locale`. -/
def ApiClient.urlParams (a : ApiClient) (queryParamPairs : List (String × String)) : List (String × String) :=
  mapSet queryParamPairs "locale" a.Locale

/-- The method `(a *ApiClient) url(path, queryParamPairs)`: sets the `locale`
parameter, serializes the pairs joined by `&`, and builds
`http://<host>/api/wow/<path>?<query>`. -/
def ApiClient.url (a : ApiClient) (path : String) (queryParamPairs : List (String × String)) : GoURL :=
  let pairs := a.urlParams queryParamPairs
  let queryParamList := pairs.map queryPair
  ⟨"http", a.Host, "/api/wow/" ++ path, String.intercalate "&" queryParamList⟩

/-- The standard base64 alphabet used by `base64.StdEncoding` in Go. -/
def base64Chars : List Char := "ABCDEFGHIJKLMNOPQRSTUVWXYZabcdefghijklmnopqrstuvwxyz0123456789+/".data

/-- Character of the base64 alphabet at index `n`. -/
def b64Char (n : Nat) : Char := base64Chars.getD n 'A'

/-- Standard base64 encoding with padding over a byte list
(`base64.StdEncoding.EncodeToString` in Go). -/
def base64Encode : List Nat → List Char
  | [] => []
  | [b1] => [b64Char (b1 / 4), b64Char ((b1 % 4) * 16), '=', '=']
  | [b1, b2] => [b64Char (b1 / 4), b64Char ((b1 % 4) * 16 + b2 / 16), b64Char ((b2 % 16) * 4), '=']
  | b1 :: b2 :: b3 :: rest =>
    b64Char (b1 / 4) :: b64Char ((b1 % 4) * 16 + b2 / 16) ::
      b64Char ((b2 % 16) * 4 + b3 / 64) :: b64Char (b3 % 64) :: base64Encode rest

/-- String form of `base64.StdEncoding.EncodeToString`. -/
def base64EncodeToString (bs : List Nat) : String := ⟨base64Encode bs⟩

/-- Byte list of a string; agrees with the Go conversion `[]byte(s)` (UTF-8)
on the ASCII strings the source encodes. -/
def utf8Bytes (s : String) : List Nat := s.data.map Char.toNat

/-- The method `(a *ApiClient) signature(verb, path)`.  `now` stands for
`time.Now().String()`, made an explicit argument.  The source builds
`toBeSigned`, feeds it to an HMAC-SHA1 keyed by the secret, discards the MAC
output, and returns `base64.StdEncoding.EncodeToString([]byte("hi"))` (the
`FIXME Figure out crypto` placeholder); the discarded HMAC is therefore not
modelled beyond the string it would have signed. -/
def ApiClient.signature (a : ApiClient) (verb : String) (path : String) (now : String) : String :=
  let u := a.url path []
  let toBeSigned := String.intercalate "\n" [verb, now, u.Path, ""]
  let _ := toBeSigned
  base64EncodeToString (utf8Bytes "hi")

/-- The method `(a *ApiClient) authorizationString(signature)`:
`fmt.Sprintf(" BNET %s:%s", a.PublicKey, signature)` (note the leading
space in the format string). -/
def ApiClient.authorizationString (a : ApiClient) (signature : String) : String :=
  " BNET " ++ a.PublicKey ++ ":" ++ signature

/-- The `http.Request` a call builds (the parts the source sets): method,
URL, and the header list. -/
structure GoRequest where
  Method : String
  URL : GoURL
  Headers : List (String × String)
deriving Repr, DecidableEq

/-- The request-construction part of `getWithParams(path, queryParams)`:
builds the URL, then attaches the `Authorization` header exactly when
`len(a.Secret) > 0`.  `now` stands for `time.Now().String()` read inside
`signature`. -/
def ApiClient.buildRequest (a : ApiClient) (path : String) (queryParams : List (String × String)) (now : String) : GoRequest :=
  let u := a.url path queryParams
  let headers :=
    if a.Secret.length > 0 then
      [("Authorization", a.authorizationString (a.signature "GET" path now))]
    else []
  ⟨"GET", u, headers⟩

/-- The resource path `GetChallenges(realm)` passes to `get`: the realm is
replaced by `"region"` when empty, then formatted as `challenge/%s`. -/
def GetChallengesResourcePath (realm : String) : String :=
  let realm := if realm = "" then "region" else realm
  "challenge/" ++ realm

/-- The 17 case labels of the `switch` in `validateCharacterFields`. -/
def characterFieldWhitelist : List String :=
  ["achievements", "appearance", "feed", "guild", "hunterPets", "items",
   "mounts", "pets", "petSlots", "professions", "progression", "pvp",
   "quests", "reputation", "stats", "talents", "titles"]

/-- Rendering of a `[]string` by the Go verb `%v`: elements joined by spaces
inside brackets. -/
def goFormatList (xs : List String) : String := "[" ++ String.intercalate " " xs ++ "]"

/-- `validateCharacterFields(fields)`: collects into `badFields` every field
hitting the `default` branch of the switch (i.e. not among the 17 labels) and
fails with the fields-are-not-valid message when `len(badFields) != 0`;
`none` models the `nil` error. -/
def validateCharacterFields (fields : List String) : Option String :=
  let badFields := fields.filter (fun field => !(characterFieldWhitelist.contains field))
  if badFields.length ≠ 0 then
    some ("The following fields are not valid: " ++ goFormatList badFields)
  else
    none

/-- The alias pairs of the region switch: both members of each pair hit the
same `case` of `NewApiClient`. -/
def regionAliasPairs : List (String × String) :=
  [("US", "United States"), ("EU", "Europe"), ("KR", "Korea"), ("TW", "Taiwan"),
   ("ZH", "CN"), ("ZH", "China"), ("CN", "China")]

/-- A sample client with a configured secret and public key, as a caller
would obtain after setting the exported `Secret` and `PublicKey` fields. -/
def c1Client : ApiClient := ⟨"us.battle.net", "en_US", "s3cret", "pubkey"⟩

instance (α β : Type) [DecidableEq α] [DecidableEq β] : DecidableEq (Except α β) := fun x y =>
  match x, y with
  | .error a, .error b =>
    if h : a = b then isTrue (by rw [h]) else isFalse (fun he => h (Except.error.inj he))
  | .ok a, .ok b =>
    if h : a = b then isTrue (by rw [h]) else isFalse (fun he => h (Except.ok.inj he))
  | .error _, .ok _ => isFalse Except.noConfusion
  | .ok _, .error _ => isFalse Except.noConfusion

/-- Helper: the Go map assignment makes the key map to the new value. -/
theorem mapSet_lookup_self (m : List (String × String)) (k v : String) :
    (mapSet m k v).lookup k = some v := by
  induction m with
  | nil => simp [mapSet, List.lookup]
  | cons p rest ih =>
    by_cases h : p.1 = k
    · simp [mapSet, h, List.lookup]
    · have hb : (k == p.1) = false := beq_eq_false_iff_ne.mpr (fun he => h he.symm)
      simp [mapSet, h, List.lookup, hb, ih]

/-- Helper: the Go map assignment leaves every other key unchanged. -/
theorem mapSet_lookup_other (m : List (String × String)) (k v q : String) (h : q ≠ k) :
    (mapSet m k v).lookup q = m.lookup q := by
  induction m with
  | nil =>
    have hb : (q == k) = false := beq_eq_false_iff_ne.mpr h
    simp [mapSet, List.lookup, hb]
  | cons p rest ih =>
    by_cases hp : p.1 = k
    · subst hp
      have hb : (q == p.1) = false := beq_eq_false_iff_ne.mpr h
      simp [mapSet, List.lookup, hb]
    · simp only [mapSet, if_neg hp, List.lookup, ih]

/-- Helper: the assigned binding is a member of the updated map. -/
theorem mapSet_mem_self (m : List (String × String)) (k v : String) :
    (k, v) ∈ mapSet m k v := by
  induction m with
  | nil => simp [mapSet]
  | cons p rest ih =>
    by_cases h : p.1 = k
    · simp [mapSet, h]
    · simp [mapSet, h, ih]

/-- Helper: a string is nonempty iff its length is positive
(the `len(a.Secret) > 0` test in `getWithParams`). -/
theorem string_ne_empty_iff (s : String) : s ≠ "" ↔ 0 < s.length := by
  constructor
  · intro h
    have hd : s.data ≠ [] := fun hnil => h (String.ext (by simp [hnil]))
    show 0 < s.data.length
    exact List.length_pos.mpr hd
  · intro h hs
    subst hs
    exact absurd h (by decide)

/-- Helper: every region entry carries a nonempty locale list. -/
theorem regionInfo_valids_ne_nil (region host : String) (valids : List String)
    (h : regionInfo region = some (host, valids)) : valids ≠ [] := by
  unfold regionInfo at h
  split at h <;> simp_all <;> (obtain ⟨h1, h2⟩ := h) <;> subst h2 <;> simp

/-- Helper: the default head of a nonempty list is a member. -/
theorem headD_mem_of_ne_nil (l : List String) (d : String) (h : l ≠ []) : l.headD d ∈ l := by
  cases l with
  | nil => exact absurd rfl h
  | cons x xs => simp [List.headD]

/-- Helper: two regions with the same `regionInfo` entry construct the same
client for every locale, up to the error message. -/
theorem newApiClient_toOption_congr (r1 r2 : String) (h : regionInfo r1 = regionInfo r2)
    (locale : String) :
    (NewApiClient r1 locale).toOption = (NewApiClient r2 locale).toOption := by
  unfold NewApiClient
  rw [h]
  cases hr : regionInfo r2 with
  | none => rfl
  | some p =>
    obtain ⟨host, valids⟩ := p
    by_cases hl : locale = ""
    · simp [hl]
    · by_cases hc : valids.contains locale
      · have hm : locale ∈ valids := List.elem_iff.mp hc
        simp [hl, hm]
      · have hm : locale ∉ valids := fun hm => hc (List.elem_iff.mpr hm)
        simp [hl, hm, Except.toOption]

/-- C1, counterexample: for the client `c1Client` (nonempty secret), the
`Authorization` header value attached to a built request is not of the form
`BNET <publicKey>:<signature>` for any signature string: the value produced
by the source carries a leading space. -/
theorem auth_header_not_exact_BNET_form :
    ¬ ∃ sig, (c1Client.buildRequest "achievement/42" [] "t").Headers =
      [("Authorization", "BNET " ++ c1Client.PublicKey ++ ":" ++ sig)] := by
  rintro ⟨sig, h⟩
  have h2 : (" BNET pubkey:aGk=" : String) = "BNET pubkey:" ++ sig := by
    have h1 := congrArg (fun l => (l.headD ("", "")).2) h
    simpa using h1
  have h3 : (" BNET pubkey:aGk=" : String).data.head? = ("BNET pubkey:" ++ sig).data.head? :=
    congrArg (fun l => List.head? l) (congrArg String.data h2)
  rw [String.data_append] at h3
  have h4 : (some ' ' : Option Char) = some 'B' := h3
  exact absurd h4 (by decide)

/-- C1, amended: for every client with a nonempty secret, the built request
carries exactly one `Authorization` header whose value is a single space
followed by `BNET <publicKey>:<signature>` (the format string of
`authorizationString` begins with a space); with an empty secret no
`Authorization` header is attached. -/
theorem auth_header_leading_space_form (a : ApiClient) (path : String)
    (params : List (String × String)) (now : String) :
    (a.Secret ≠ "" →
      (a.buildRequest path params now).Headers =
        [("Authorization", " BNET " ++ a.PublicKey ++ ":" ++ a.signature "GET" path now)]) ∧
    (a.Secret = "" → (a.buildRequest path params now).Headers = []) := by
  constructor
  · intro h
    have hl : 0 < a.Secret.length := (string_ne_empty_iff a.Secret).mp h
    simp [ApiClient.buildRequest, hl, ApiClient.authorizationString]
  · intro h
    simp [ApiClient.buildRequest, h]

/-- C1, witness: the amended statement evaluated on a client with a secret
and on one without. -/
theorem auth_header_leading_space_form_witness :
    (c1Client.buildRequest "achievement/42" [] "t").Headers =
      [("Authorization", " BNET " ++ c1Client.PublicKey ++ ":" ++ c1Client.signature "GET" "achievement/42" "t")] ∧
    ((ApiClient.mk "us.battle.net" "en_US" "" "").buildRequest "achievement/42" [] "t").Headers = [] :=
  ⟨(auth_header_leading_space_form c1Client "achievement/42" [] "t").1 (by decide),
   (auth_header_leading_space_form ⟨"us.battle.net", "en_US", "", ""⟩ "achievement/42" [] "t").2 rfl⟩

/-- C2: the signature computation returns the same string for every pair of
clients (hence every secret), every verb, every path and every timestamp:
its result is the fixed placeholder, independent of all inputs. -/
theorem signature_constant (a b : ApiClient) (verb1 path1 now1 verb2 path2 now2 : String) :
    a.signature verb1 path1 now1 = b.signature verb2 path2 now2 := rfl

/-- C2, witness: two clients with different secrets, verbs, paths and
timestamps produce the same signature. -/
theorem signature_constant_witness :
    (ApiClient.mk "us.battle.net" "en_US" "secretA" "pkA").signature "GET" "achievement/1" "t1" =
      (ApiClient.mk "eu.battle.net" "en_GB" "secretB" "pkB").signature "PUT" "challenge/region" "t2" :=
  signature_constant ⟨"us.battle.net", "en_US", "secretA", "pkA"⟩
    ⟨"eu.battle.net", "en_GB", "secretB", "pkB"⟩ "GET" "achievement/1" "t1" "PUT" "challenge/region" "t2"

/-- C3: the whitelist has 17 entries; the validator succeeds exactly when
every field is whitelisted; and when some field is not, it fails with the
message rendering the filtered list of bad fields, a list containing every
offending name. -/
theorem validateCharacterFields_spec (fields : List String) :
    characterFieldWhitelist.length = 17 ∧
    (validateCharacterFields fields = none ↔ ∀ f ∈ fields, f ∈ characterFieldWhitelist) ∧
    ((∃ f ∈ fields, f ∉ characterFieldWhitelist) →
      validateCharacterFields fields =
        some ("The following fields are not valid: " ++
          goFormatList (fields.filter (fun f => !(characterFieldWhitelist.contains f)))) ∧
      ∀ f ∈ fields, f ∉ characterFieldWhitelist →
        f ∈ fields.filter (fun f => !(characterFieldWhitelist.contains f))) := by
  refine ⟨by decide, ?_, ?_⟩
  · simp [validateCharacterFields, List.length_eq_zero, List.filter_eq_nil_iff]
  · rintro ⟨f, hf, hnf⟩
    have hmem : f ∈ fields.filter (fun f => !(characterFieldWhitelist.contains f)) :=
      List.mem_filter.mpr ⟨hf, by simpa using hnf⟩
    have hne : (fields.filter (fun f => !(characterFieldWhitelist.contains f))).length ≠ 0 := by
      intro h0
      rw [List.length_eq_zero] at h0
      rw [h0] at hmem
      exact absurd hmem (List.not_mem_nil f)
    refine ⟨?_, ?_⟩
    · simp only [validateCharacterFields]
      rw [if_pos hne]
    intro g hg hng
    exact List.mem_filter.mpr ⟨hg, by simpa using hng⟩

/-- C3, witness: a list with one bad field fails naming it, and a list of
three whitelisted fields passes. -/
theorem validateCharacterFields_spec_witness :
    validateCharacterFields ["guild", "bogus"] =
      some ("The following fields are not valid: " ++ goFormatList ["bogus"]) ∧
    validateCharacterFields ["guild", "pvp", "talents"] = none := by
  have h := validateCharacterFields_spec ["guild", "bogus"]
  have h2 := (h.2.2 ⟨"bogus", by decide, by decide⟩).1
  have h3 := validateCharacterFields_spec ["guild", "pvp", "talents"]
  exact ⟨h2, h3.2.1.mpr (by decide)⟩

/-- C4: the URL path built for a challenge fetch ends in `/challenge/region`
when the realm is empty, and in `/challenge/<realm>` when it is not. -/
theorem getChallenges_path_spec (a : ApiClient) (realm : String) :
    (realm = "" → ∃ pre, (a.url (GetChallengesResourcePath realm) []).Path = pre ++ "/challenge/region") ∧
    (realm ≠ "" → ∃ pre, (a.url (GetChallengesResourcePath realm) []).Path = (pre ++ "/challenge/") ++ realm) := by
  constructor
  · intro h
    subst h
    refine ⟨"/api/wow", ?_⟩
    rfl
  · intro h
    refine ⟨"/api/wow", ?_⟩
    simp only [GetChallengesResourcePath, if_neg h, ApiClient.url]
    rfl

/-- C4, witness: both branches evaluated on a concrete client, with empty
realm and with realm `hyjal`. -/
theorem getChallenges_path_spec_witness :
    (∃ pre, ((ApiClient.mk "us.battle.net" "en_US" "" "").url (GetChallengesResourcePath "") []).Path =
      pre ++ "/challenge/region") ∧
    (∃ pre, ((ApiClient.mk "us.battle.net" "en_US" "" "").url (GetChallengesResourcePath "hyjal") []).Path =
      (pre ++ "/challenge/") ++ "hyjal") :=
  ⟨(getChallenges_path_spec ⟨"us.battle.net", "en_US", "", ""⟩ "").1 rfl,
   (getChallenges_path_spec ⟨"us.battle.net", "en_US", "", ""⟩ "hyjal").2 (by decide)⟩

/-- C5: for every supported region identifier, construction with the empty
locale succeeds with the first entry of the valid-locale list of the region
(which is a member of that list); in particular region `EU` with empty
locale yields locale `en_GB`. -/
theorem newApiClient_empty_locale_default (region host : String) (valids : List String)
    (h : regionInfo region = some (host, valids)) :
    NewApiClient region "" = Except.ok ⟨host, valids.headD "", "", ""⟩ ∧
    valids.headD "" ∈ valids ∧
    NewApiClient "EU" "" = Except.ok ⟨"eu.battle.net", "en_GB", "", ""⟩ := by
  refine ⟨by simp [NewApiClient, h], ?_, by decide⟩
  exact headD_mem_of_ne_nil valids "" (regionInfo_valids_ne_nil region host valids h)

/-- C5, witness: region `EU` with empty locale yields locale `en_GB`. -/
theorem newApiClient_empty_locale_default_witness :
    NewApiClient "EU" "" = Except.ok ⟨"eu.battle.net", "en_GB", "", ""⟩ := by
  have h := newApiClient_empty_locale_default "EU" "eu.battle.net"
    ["en_GB", "es_ES", "fr_FR", "ru_RU", "de_DE", "pt_PT", "it_IT"] (by decide)
  exact h.2.2

/-- C6: for every supported region and every nonempty locale outside the
valid-locale list of that region, construction fails with the error message
naming both the locale and the region identifier. -/
theorem newApiClient_invalid_locale_error (region host locale : String) (valids : List String)
    (h : regionInfo region = some (host, valids)) (hne : locale ≠ "") (hnv : locale ∉ valids) :
    NewApiClient region locale =
      Except.error ("Locale \x27" ++ locale ++ "\x27 is not valid for region \x27" ++ region ++ "\x27") := by
  have hc : valids.contains locale = false := by
    rw [Bool.eq_false_iff]
    intro hcon
    exact hnv (List.elem_iff.mp hcon)
  simp [NewApiClient, h, hne, hc, hnv]

/-- C6, witness: region `US` with locale `xx_XX` fails naming both. -/
theorem newApiClient_invalid_locale_error_witness :
    NewApiClient "US" "xx_XX" =
      Except.error ("Locale \x27xx_XX\x27 is not valid for region \x27US\x27") :=
  newApiClient_invalid_locale_error "US" "us.battle.net" "xx_XX"
    ["en_US", "es_MX", "pt_BR"] (by decide) (by decide) (by decide)

/-- C7, counterexample: constructing with the aliases `US` and
`United States` and the invalid locale `bogus` does not yield exactly the
same result: the two error values carry different messages, each echoing
the region string actually passed. -/
theorem alias_error_messages_differ :
    NewApiClient "US" "bogus" ≠ NewApiClient "United States" "bogus" := by decide

/-- C7, amended: for every alias pair naming the same region and every
locale argument, the two constructions agree up to the error message: the
same client on success, and failure in exactly the same cases (the
`InvalidLocale` message differs only in the region string it echoes). -/
theorem alias_same_result_up_to_message (p : String × String) (hp : p ∈ regionAliasPairs)
    (locale : String) :
    (NewApiClient p.1 locale).toOption = (NewApiClient p.2 locale).toOption := by
  simp [regionAliasPairs] at hp
  rcases hp with h | h | h | h | h | h | h <;> subst h <;>
    exact newApiClient_toOption_congr _ _ (by decide) locale

/-- C7, witness: the amended statement at the pair `US`/`United States` with
locale `en_US`. -/
theorem alias_same_result_up_to_message_witness :
    (NewApiClient "US" "en_US").toOption = (NewApiClient "United States" "en_US").toOption :=
  alias_same_result_up_to_message ("US", "United States") (by decide) "en_US"

/-- C8: the URL builder assigns the configured locale of the client to the
`locale` key of the map of the caller (overwriting any prior value), leaves
every other key unchanged, and the serialized query is the `&`-join of the
`k=v` pairs of that updated map, among which `locale=<locale>` occurs. -/
theorem url_locale_injection_frame (a : ApiClient) (path : String)
    (m : List (String × String)) (q : String) (hq : q ≠ "locale") :
    (a.urlParams m).lookup "locale" = some a.Locale ∧
    (a.urlParams m).lookup q = m.lookup q ∧
    ("locale=" ++ a.Locale) ∈ (a.urlParams m).map queryPair ∧
    (a.url path m).RawQuery = String.intercalate "&" ((a.urlParams m).map queryPair) := by
  refine ⟨mapSet_lookup_self m "locale" a.Locale,
    mapSet_lookup_other m "locale" a.Locale q hq, ?_, rfl⟩
  exact List.mem_map.mpr ⟨("locale", a.Locale), mapSet_mem_self m "locale" a.Locale, rfl⟩

/-- C8, witness: the theorem evaluated on a map carrying a caller-supplied
`locale` entry and a `fields` entry. -/
theorem url_locale_injection_frame_witness :
    ((ApiClient.mk "h" "en_US" "" "").urlParams [("fields", "guild"), ("locale", "zz")]).lookup "locale" = some "en_US" ∧
    ((ApiClient.mk "h" "en_US" "" "").urlParams [("fields", "guild"), ("locale", "zz")]).lookup "fields" =
      [("fields", "guild"), ("locale", "zz")].lookup "fields" ∧
    ("locale=" ++ "en_US") ∈ (((ApiClient.mk "h" "en_US" "" "").urlParams [("fields", "guild"), ("locale", "zz")]).map queryPair) ∧
    ((ApiClient.mk "h" "en_US" "" "").url "character/hyjal/bob" [("fields", "guild"), ("locale", "zz")]).RawQuery =
      String.intercalate "&" (((ApiClient.mk "h" "en_US" "" "").urlParams [("fields", "guild"), ("locale", "zz")]).map queryPair) :=
  url_locale_injection_frame ⟨"h", "en_US", "", ""⟩ "character/hyjal/bob"
    [("fields", "guild"), ("locale", "zz")] "fields" (by decide)

/-- C9: every client produced by successful construction has a host equal to
the resolved host of its region and a locale that is a member of the
valid-locale list of that region.  In this embedding every operation is a
pure function of the client, so the invariant is preserved by construction
of the model. -/
theorem client_locale_invariant (region locale : String) (c : ApiClient)
    (h : NewApiClient region locale = Except.ok c) :
    ∃ host valids, regionInfo region = some (host, valids) ∧
      c.Host = host ∧ c.Locale ∈ valids := by
  unfold NewApiClient at h
  split at h
  · exact Except.noConfusion h
  · rename_i host valids heq
    refine ⟨host, valids, heq, ?_⟩
    split at h
    · have h2 := Except.ok.inj h
      rw [← h2]
      exact ⟨rfl, headD_mem_of_ne_nil valids "" (regionInfo_valids_ne_nil region host valids heq)⟩
    · split at h
      · rename_i hc
        have h2 := Except.ok.inj h
        rw [← h2]
        exact ⟨rfl, List.elem_iff.mp hc⟩
      · exact Except.noConfusion h

/-- C9, witness: the invariant checked for the client built from region `US`
and locale `es_MX`. -/
theorem client_locale_invariant_witness :
    ∃ host valids, regionInfo "US" = some (host, valids) ∧
      (ApiClient.mk "us.battle.net" "es_MX" "" "").Host = host ∧
      (ApiClient.mk "us.battle.net" "es_MX" "" "").Locale ∈ valids :=
  client_locale_invariant "US" "es_MX" ⟨"us.battle.net", "es_MX", "", ""⟩ (by decide)

/-- C10: every client returned by the public constructor has empty `Secret`
and empty `PublicKey`, and consequently every request built through it
carries no `Authorization` header. -/
theorem constructor_unauthenticated (region locale : String) (c : ApiClient)
    (h : NewApiClient region locale = Except.ok c) :
    c.Secret = "" ∧ c.PublicKey = "" ∧
      ∀ path params now, (c.buildRequest path params now).Headers = [] := by
  have hs : c.Secret = "" ∧ c.PublicKey = "" := by
    unfold NewApiClient at h
    split at h
    · exact Except.noConfusion h
    · split at h
      · have h2 := Except.ok.inj h
        rw [← h2]
        exact ⟨rfl, rfl⟩
      · split at h
        · have h2 := Except.ok.inj h
          rw [← h2]
          exact ⟨rfl, rfl⟩
        · exact Except.noConfusion h
  refine ⟨hs.1, hs.2, ?_⟩
  intro path params now
  simp [ApiClient.buildRequest, hs.1]

/-- C10, witness: the client built from region `EU` and empty locale has no
credentials and builds unauthenticated requests. -/
theorem constructor_unauthenticated_witness :
    (ApiClient.mk "eu.battle.net" "en_GB" "" "").Secret = "" ∧
    (ApiClient.mk "eu.battle.net" "en_GB" "" "").PublicKey = "" ∧
    ∀ path params now,
      ((ApiClient.mk "eu.battle.net" "en_GB" "" "").buildRequest path params now).Headers = [] :=
  constructor_unauthenticated "EU" "" ⟨"eu.battle.net", "en_GB", "", ""⟩ (by decide)
